import Mathlib

/-!
Shallow embedding of Scripts/ucd_to_harness.py (UCD to Harness converter).

Strings are modelled as Lean strings (lists of characters).  Python regular
expression operations used by the script are hand-translated:
character classes become predicates on characters, `re.sub` with a
one-character-class-plus pattern becomes a run-replacement function, and the
two anchored validator patterns become Boolean full-match functions.
The Python `re` module as used by the template-registry matcher (arbitrary
user-supplied patterns) is modelled as an oracle parameter: for a pattern and
a haystack it returns `none` when compiling the pattern raises `re.error`,
and `some b` for a successful case-insensitive search returning `b`.
-/

namespace UcdToHarness

/-! ## Character classes

`isPySpace` models the set matched by the Python regex class `\s` on `str`
(and stripped by `str.strip()`): ASCII whitespace, the file separators
0x1c-0x1f, and the Unicode whitespace code points. -/

def isPySpace (c : Char) : Bool :=
  c.toNat = 9 || c.toNat = 10 || c.toNat = 11 || c.toNat = 12 || c.toNat = 13 ||
  c.toNat = 28 || c.toNat = 29 || c.toNat = 30 || c.toNat = 31 || c.toNat = 32 ||
  c.toNat = 133 || c.toNat = 160 || c.toNat = 0x1680 ||
  (0x2000 ≤ c.toNat && c.toNat ≤ 0x200a) ||
  c.toNat = 0x2028 || c.toNat = 0x2029 || c.toNat = 0x202f ||
  c.toNat = 0x205f || c.toNat = 0x3000

/-- The class `[0-9A-Za-z_]` (the complement of ID_SAN, and the tail class of
ID_RE). -/
def idChar (c : Char) : Bool :=
  (48 ≤ c.toNat && c.toNat ≤ 57) || (65 ≤ c.toNat && c.toNat ≤ 90) ||
  (97 ≤ c.toNat && c.toNat ≤ 122) || c.toNat = 95

/-- The class `[A-Za-z_]` (the head class of ID_RE). -/
def idStart (c : Char) : Bool :=
  (65 ≤ c.toNat && c.toNat ≤ 90) || (97 ≤ c.toNat && c.toNat ≤ 122) || c.toNat = 95

/-- The class `[A-Za-z_0-9\-.]` (the head class of NM_RE; 45 is the hyphen
and 46 the dot). -/
def nameFirstChar (c : Char) : Bool :=
  idChar c || c.toNat = 45 || c.toNat = 46

/-- The class `[-0-9A-Za-z_\s.]` (the tail class of NM_RE). -/
def nameRestChar (c : Char) : Bool :=
  nameFirstChar c || isPySpace c

/-- The class `[0-9A-Za-z_\-\s.]` kept by the name sanitizer. -/
def nameKeepChar (c : Char) : Bool :=
  idChar c || c.toNat = 45 || c.toNat = 46 || isPySpace c

/-! ## List-of-characters utilities shared by the sanitizers -/

/-- Worker for `subRuns`; the flag records whether the previous character was
inside a run being replaced. -/
def subRunsAux (p : Char → Bool) (r : Char) : Bool → List Char → List Char
  | _, [] => []
  | inRun, c :: cs =>
    if p c then
      if inRun then subRunsAux p r true cs
      else r :: subRunsAux p r true cs
    else c :: subRunsAux p r false cs

/-- `re.sub` with a pattern of the form `[class]+` and a one-character
replacement: every maximal run of characters satisfying `p` becomes the single
character `r`. -/
def subRuns (p : Char → Bool) (r : Char) (s : List Char) : List Char :=
  subRunsAux p r false s

/-- Remove the trailing characters satisfying `p` (the right half of
`str.strip`). -/
def dropTrailing (p : Char → Bool) : List Char → List Char
  | [] => []
  | c :: cs =>
    let r := dropTrailing p cs
    if r.isEmpty && p c then [] else c :: r

/-- `str.strip(chars)` for a character predicate. -/
def pyStripP (p : Char → Bool) (s : List Char) : List Char :=
  dropTrailing p (s.dropWhile p)

/-- `str.strip()`. -/
def pyStrip (s : List Char) : List Char := pyStripP isPySpace s

/-- `str.strip("_")`. -/
def stripUnderscores (s : List Char) : List Char :=
  pyStripP (fun c => c = '_') s

/-- Full match against `ID_RE`, the anchored pattern
`[A-Za-z_][0-9A-Za-z_]` with zero to 127 tail characters. -/
def matchesIdRe : List Char → Bool
  | [] => false
  | c :: cs => idStart c && cs.all idChar && decide (cs.length ≤ 127)

/-- Full match against `NM_RE`, the anchored pattern
`[A-Za-z_0-9\-.][-0-9A-Za-z_\s.]` with zero to 127 tail characters. -/
def matchesNmRe : List Char → Bool
  | [] => false
  | c :: cs => nameFirstChar c && cs.all nameRestChar && decide (cs.length ≤ 127)

/-- Whether the list contains two consecutive underscores (the pattern `_+`
with a run longer than one, which `re.sub` and `strip` rewrite). -/
def hasDoubleUnderscore : List Char → Bool
  | c1 :: c2 :: rest => (c1 = '_' && c2 = '_') || hasDoubleUnderscore (c2 :: rest)
  | _ => false

/-! ## The two sanitizers (source lines 54-89) -/

/-- Body of `sanitize_identifier`, line by line:
strip after substituting the default, replace runs of non-identifier
characters by an underscore, guard the first character, collapse underscore
runs, strip underscores, truncate, and if the result still fails ID_RE run
the last-resort branch. -/
def sanitizeIdCore (s0 : List Char) : List Char :=
  let s1 := pyStrip (if s0.isEmpty then "id".data else s0)
  let s2 := subRuns (fun c => !idChar c) '_' s1
  let s3 := if s2.isEmpty || !idStart (s2.headD ' ') then '_' :: s2 else s2
  let s4 := (stripUnderscores (subRuns (fun c => c = '_') '_' s3)).take 128
  if matchesIdRe s4 then s4
  else
    let s5 := '_' :: (s4.map fun c => if idChar c then c else '_')
    let s6 := (stripUnderscores (subRuns (fun c => c = '_') '_' s5)).take 128
    if s6.isEmpty then "id".data else s6

def sanitize_identifier (s : String) : String := ⟨sanitizeIdCore s.data⟩

/-- Lines 61-75 of `sanitize_name` (after the collapsing pipeline produced
`s4`): substitute the default when empty, truncate, and run the two repair
branches when NM_RE still fails. -/
def sanitizeNmFinish (s4 : List Char) : List Char :=
  let s5 := if s4.isEmpty then "Name".data else s4
  let s6 := s5.take 128
  let s7 :=
    if matchesNmRe s6 then s6
    else
      let t := s6.dropWhile isPySpace
      let t2 := if t.isEmpty || !nameFirstChar (t.headD ' ') then '_' :: t else t
      t2.take 128
  if matchesNmRe s7 then s7
  else
    let u := (subRuns (fun c => c = '_') ' ' (subRuns (fun c => !idChar c) '_' s7)).take 128
    if u.isEmpty then "Name".data else u

/-- Body of `sanitize_name` (lines 54-60 feeding `sanitizeNmFinish`): strip
after substituting the default, replace the four explicitly forbidden
characters by spaces, replace runs of other disallowed characters by a
space, collapse whitespace runs to single spaces and strip. -/
def sanitizeNmCore (s0 : List Char) : List Char :=
  sanitizeNmFinish (pyStrip (subRuns isPySpace ' '
    (subRuns (fun c => !nameKeepChar c) ' '
      ((pyStrip (if s0.isEmpty then "Name".data else s0)).map fun c =>
        if c = '/' || c = '\\' || c = '(' || c = ')' then ' ' else c))))

def sanitize_name (s : String) : String := ⟨sanitizeNmCore s.data⟩

/-! ## Tag parsing (source lines 178-199)

A raw tag object is either a JSON object (whose `name` field may be absent:
`t.get("name")` then yields None, and `str(None)` is the string `"None"`) or
a bare value coerced with `str`. -/

inductive TagObj where
  | tagDict (name : Option String)
  | tagStr (s : String)
  deriving DecidableEq

/-- `str(t.get("name") if isinstance(t, dict) else str(t))`. -/
def rawName : TagObj → String
  | .tagDict (some s) => s
  | .tagDict none => "None"
  | .tagStr s => s

/-- Split a list at the first occurrence of `sep`; `none` when `sep` does not
occur (this is `name.split(sep, 1)` guarded by `sep in name`). -/
def splitFirst (sep : Char) : List Char → Option (List Char × List Char)
  | [] => none
  | c :: cs =>
    if c = sep then some ([], cs)
    else
      match splitFirst sep cs with
      | some (a, b) => some (c :: a, b)
      | none => none

def _parse_tag (name : String) : String × String :=
  match splitFirst ':' (pyStrip name.data) with
  | some (k, v) => (⟨pyStrip k⟩, ⟨pyStrip v⟩)
  | none => (⟨pyStrip name.data⟩, "true")

/-- Python dict assignment `d[k] = v`: update in place when the key exists
(keeping its position), otherwise append.  The dict is modelled as an
insertion-ordered association list without duplicate keys. -/
def dictSet (d : List (String × String)) (k v : String) : List (String × String) :=
  if d.any fun p => p.1 = k then d.map fun p => if p.1 = k then (p.1, v) else p
  else d ++ [(k, v)]

def collect_tags_map (tag_objs : List TagObj) : List (String × String) :=
  tag_objs.foldl
    (fun tags t =>
      let kv := _parse_tag (rawName t)
      if kv.1.isEmpty then tags else dictSet tags kv.1 kv.2)
    []

def collect_tags_flat (tag_objs : List TagObj) : List String :=
  tag_objs.map rawName

/-- `{**a, **b}`: merge two dicts, entries of `b` overriding those of `a`. -/
def dictMerge (a b : List (String × String)) : List (String × String) :=
  b.foldl (fun d kv => dictSet d kv.1 kv.2) a

/-! ## Deployment type classification (source lines 108-135) -/

def VALID_DEPLOYMENT_TYPES : List String :=
  ["CustomDeployment", "WinRm", "TAS", "Kubernetes", "SSH", "NativeHelm",
   "ECS", "AzureWebApp", "ServerlessAwsLambda", "GoogleCloudRun"]

/-- The synonym table in its Python insertion order (dict iteration order). -/
def SYNONYMS : List (String × String) :=
  [("pcf", "TAS"), ("tanzu", "TAS"), ("cloud foundry", "TAS"), ("tas", "TAS"),
   ("windows", "WinRm"), ("winrm", "WinRm"), ("iis", "WinRm"),
   ("msi_deploy", "WinRm"), ("windows service", "WinRm"),
   ("k8s", "Kubernetes"), ("kubernetes", "Kubernetes")]

def startsWithL : List Char → List Char → Bool
  | _, [] => true
  | [], _ :: _ => false
  | c :: cs, d :: ds => c = d && startsWithL cs ds

/-- Substring occurrence, the Python `needle in hay` test on strings. -/
def containsSubL : List Char → List Char → Bool
  | [], needle => needle.isEmpty
  | c :: cs, needle => startsWithL (c :: cs) needle || containsSubL cs needle

def strContains (hay needle : String) : Bool := containsSubL hay.data needle.data

/-- `str.lower()` (modelled on the ASCII letters, the only ones the script
compares against). -/
def pyLower (s : String) : String := ⟨s.data.map Char.toLower⟩

/-- The haystack `" ".join(app_tags + comp_tags).lower()` built by
`infer_deployment_type`. -/
def dt_hay (app_tags comp_tags : List String) : String :=
  pyLower (String.intercalate " " (app_tags ++ comp_tags))

/-- First synonym whose key occurs in the haystack, in table order. -/
def synLookup : List (String × String) → String → String
  | [], _ => "CustomDeployment"
  | (k, v) :: rest, hay => if strContains hay k then v else synLookup rest hay

def infer_deployment_type (app_tags comp_tags : List String) : String :=
  synLookup SYNONYMS (dt_hay app_tags comp_tags)

/-- Exact (whole-string) synonym lookup used by the normalizer. -/
def synExact : List (String × String) → String → String
  | [], _ => "CustomDeployment"
  | (k, v) :: rest, low => if k = low then v else synExact rest low

/-- `normalize_deployment_type` (the `None` argument is modelled as the empty
string, both being falsy). -/
def normalize_deployment_type (dt : String) : String :=
  if dt.isEmpty then "CustomDeployment"
  else if VALID_DEPLOYMENT_TYPES.contains dt then dt
  else synExact SYNONYMS (pyLower dt)

/-! ## Rule regex clauses (source lines 229-245)

`re.search(p, hay, re.IGNORECASE)` on an arbitrary registry-supplied pattern
is modelled by an oracle: `none` when the pattern is malformed (the call
raises `re.error`), `some b` for a successful search with result `b`. -/

def RegexOracle : Type := String → String → Option Bool

/-- A pattern that raises is skipped (`except re.error: pass`); any other
pattern that matches returns true. -/
def _regex_any (rx : RegexOracle) (pats : List String) (hay : String) : Bool :=
  pats.any fun p => (rx p hay).getD false

/-- A pattern that raises fails the clause (`except re.error: return False`),
as does a pattern that does not match. -/
def _regex_all (rx : RegexOracle) (pats : List String) (hay : String) : Bool :=
  pats.all fun p => (rx p hay).getD false

/-! ## Registry rules and the step-group matcher (source lines 204-279) -/

structure MatchSpec where
  tags_any : List String
  tags_all : List String
  any_regex : List String
  all_regex : List String
  deriving DecidableEq

/-- The `inputs` entry of a rule, reduced to its `variables` mapping (the
well-typed case; `inputs` missing or falsy is the empty mapping). -/
abbrev Inputs := List (String × String)

structure Rule where
  name : String
  templateRef : Option String
  versionLabel : String
  match_ : MatchSpec
  inputs : Inputs
  deriving DecidableEq

structure TemplateVar where
  name : String
  type : String
  value : String
  deriving DecidableEq

def _build_template_inputs (inputs : Inputs) : Option (List TemplateVar) :=
  if inputs.isEmpty then none
  else some (inputs.map fun kv => ⟨kv.1, "String", kv.2⟩)

/-- The spec dict appended for a matching rule. -/
structure StepGroupSpec where
  name : String
  templateRef : Option String
  versionLabel : String
  templateInputs : Option (List TemplateVar)
  deriving DecidableEq

def ruleToSpec (r : Rule) : StepGroupSpec :=
  { name := r.name, templateRef := r.templateRef, versionLabel := r.versionLabel,
    templateInputs := _build_template_inputs r.inputs }

/-- The rule loop of `match_stepgroups_for_component`: each present clause
must pass (an absent clause is skipped), matching rules are collected in
registry order, and `first_match` stops after the first success. -/
def matchRules (rx : RegexOracle) (tags_set : List String) (hay : String)
    (first_match : Bool) : List Rule → List StepGroupSpec
  | [] => []
  | r :: rest =>
    let m := r.match_
    let ta := m.tags_any.map pyLower
    let tl := m.tags_all.map pyLower
    let ok := (ta.isEmpty || ta.any fun t => tags_set.contains t)
      && (tl.isEmpty || tl.all fun t => tags_set.contains t)
      && (m.any_regex.isEmpty || _regex_any rx m.any_regex hay)
      && (m.all_regex.isEmpty || _regex_all rx m.all_regex hay)
    if ok then
      ruleToSpec r ::
        (if first_match then [] else matchRules rx tags_set hay first_match rest)
    else matchRules rx tags_set hay first_match rest

def match_stepgroups_for_component (rx : RegexOracle) (app_name comp_name : String)
    (app_tags comp_tags : List String) (registry : List Rule)
    (first_match : Bool) : List StepGroupSpec :=
  let tags_set := (app_tags ++ comp_tags).map pyLower
  let hay := String.intercalate " " ([app_name, comp_name] ++ app_tags ++ comp_tags)
  matchRules rx tags_set hay first_match registry

/-- An oracle that never matches; the registries used below have no regex
clauses, so the oracle is irrelevant to their evaluation. -/
def noRx : RegexOracle := fun _ _ => none

def javaRule : Rule :=
  { name := "JavaSG", templateRef := some "acct.java_sg", versionLabel := "v1",
    match_ := { tags_any := ["java"], tags_all := [], any_regex := [], all_regex := [] },
    inputs := [] }

/-! ## Registry loading (source lines 204-227)

The YAML value returned by `yaml.safe_load` is modelled by an inductive type;
the filesystem is a map from a path to `none` (file absent, so
`os.path.exists` is false) or to the outcome of parsing the file content:
`Except.error` when `yaml.safe_load` raises, `Except.ok` with the parsed
value otherwise.  Exceptions escaping `load_registry` (which has no handler)
are the `Except.error` results; `main` calls it unguarded, so an error
terminates the run. -/

inductive Yaml where
  | null
  | bool (b : Bool)
  | num (n : Int)
  | str (s : String)
  | arr (l : List Yaml)
  | map (es : List (String × Yaml))

/-- Python dict lookup `d.get(k)` on the entries of a mapping, `none` when
the key is absent. -/
def yamlGet (es : List (String × Yaml)) (k : String) : Option Yaml :=
  (es.find? fun p => p.1 = k).map fun p => p.2

/-- `d.get(k)` with the Python `None` result represented as the null value. -/
def yamlGetD (es : List (String × Yaml)) (k : String) : Yaml :=
  (yamlGet es k).getD .null

/-- Python truthiness of a YAML value. -/
def yamlTruthy : Yaml → Bool
  | .null => false
  | .bool b => b
  | .num n => decide (n ≠ 0)
  | .str s => !s.isEmpty
  | .arr l => !l.isEmpty
  | .map es => !es.isEmpty

/-- Python `a or b`. -/
def yamlOr (a b : Yaml) : Yaml := if yamlTruthy a then a else b

/-- A scalar field expected to hold a string; the embedding covers the
well-typed case and renders other values as the empty string. -/
def yamlAsStr : Yaml → String
  | .str s => s
  | _ => ""

/-- A field expected to hold a list of strings (well-typed case). -/
def yamlStrList : Yaml → List String
  | .arr l => l.map yamlAsStr
  | _ => []

/-- A field expected to hold a string-to-string mapping (well-typed case). -/
def yamlStrMap : Yaml → List (String × String)
  | .map es => es.map fun p => (p.1, yamlAsStr p.2)
  | _ => []

def yamlMapEntries : Yaml → List (String × Yaml)
  | .map es => es
  | _ => []

/-- `for it in items` over a YAML value: a list yields its elements, a string
its characters (as one-character strings), a mapping its keys; numbers and
booleans raise TypeError. -/
def yamlIter : Yaml → Except String (List Yaml)
  | .arr l => .ok l
  | .str s => .ok (s.data.map fun c => .str ⟨[c]⟩)
  | .map es => .ok (es.map fun p => .str p.1)
  | .null => .error "TypeError: not iterable"
  | .bool _ => .error "TypeError: not iterable"
  | .num _ => .error "TypeError: not iterable"

/-- The body of the item loop of `load_registry` for one item: a non-dict
item is skipped; `m = it.get("match") or {}` raises AttributeError when the
result is a truthy non-dict. -/
def parseItem (it : Yaml) : Except String (Option Rule) :=
  match it with
  | .map es =>
    match yamlOr (yamlGetD es "match") (.map []) with
    | .map ms =>
      let inputsVars :=
        yamlStrMap (yamlOr
          (yamlGetD (yamlMapEntries (yamlOr (yamlGetD es "inputs") (.map []))) "variables")
          (.map []))
      .ok (some {
        name := yamlAsStr (yamlOr (yamlGetD es "name")
          (yamlOr (yamlGetD es "templateRef") (.str "StepGroup"))),
        templateRef :=
          match yamlGetD es "templateRef" with
          | .str s => some s
          | _ => none,
        versionLabel :=
          match yamlGet es "versionLabel" with
          | none => "v1"
          | some y => yamlAsStr y,
        match_ := {
          tags_any := yamlStrList (yamlOr (yamlGetD ms "tags_any") (.arr [])),
          tags_all := yamlStrList (yamlOr (yamlGetD ms "tags_all") (.arr [])),
          any_regex := yamlStrList (yamlOr (yamlGetD ms "any_regex") (.arr [])),
          all_regex := yamlStrList (yamlOr (yamlGetD ms "all_regex") (.arr [])) },
        inputs := inputsVars })
    | _ => .error "AttributeError: get"
  | _ => .ok none

def parseItems : List Yaml → Except String (List Rule)
  | [] => .ok []
  | it :: rest => do
    let r? ← parseItem it
    let rs ← parseItems rest
    match r? with
    | some r => .ok (r :: rs)
    | none => .ok rs

/-- `load_registry`: a falsy or non-existent path yields no rules; otherwise
the file content is parsed (a parse failure propagates), falsy data is
replaced by an empty mapping, and `data.get("templates")` raises on a truthy
non-mapping. -/
def load_registry (path : Option String)
    (fs : String → Option (Except String Yaml)) : Except String (List Rule) :=
  match path with
  | none => .ok []
  | some p =>
    if p.isEmpty then .ok []
    else
      match fs p with
      | none => .ok []
      | some (.error e) => .error e
      | some (.ok y) =>
        match yamlOr y (.map []) with
        | .map es =>
          match yamlIter (yamlOr (yamlGetD es "templates") (.arr [])) with
          | .error e => .error e
          | .ok its => parseItems its
        | _ => .error "AttributeError: get"

/-- An oracle on which the single pattern `[` is malformed and every other
pattern matches exactly its own text. -/
def rxW : RegexOracle := fun pat hay => if pat = "[" then none else some (pat = hay)

/-- A filesystem on which every file exists but fails YAML parsing. -/
def fsBadYaml : String → Option (Except String Yaml) :=
  fun _ => some (.error "ScannerError")

/-! ## Document builders and the per-application conversion
(source lines 140-162, 284-375, 461-501)

The output documents are modelled by structures carrying the fields the
builders compute; subtrees that the builders emit as fixed constants (the
Custom serviceDefinition, the environment and infrastructure placeholders,
the failure strategy, and the terminal placeholder Deploy step) are omitted.
`orgIdentifier` and `projectIdentifier` are `none` while absent and are
injected by the `setdefault` calls of `ensure_meta`. -/

structure ServiceDoc where
  name : String
  identifier : String
  orgIdentifier : Option String
  projectIdentifier : Option String
  tags : List (String × String)
  deriving DecidableEq

structure StepGroupBlock where
  name : String
  identifier : String
  templateRef : Option String
  versionLabel : String
  templateInputs : Option (List TemplateVar)
  deriving DecidableEq

structure StageDoc where
  name : String
  identifier : String
  deploymentType : String
  serviceRef : String
  stepGroups : List StepGroupBlock
  deriving DecidableEq

structure PipelineDoc where
  name : String
  identifier : String
  orgIdentifier : Option String
  projectIdentifier : Option String
  tags : List (String × String)
  stages : List StageDoc
  deriving DecidableEq

def build_service_payload (name identifier : String)
    (tags_map : List (String × String)) : ServiceDoc :=
  { name := sanitize_name name, identifier := sanitize_identifier identifier,
    orgIdentifier := none, projectIdentifier := none, tags := tags_map }

def build_stage_for_component (svc_identifier stage_name deployment_type : String)
    (matched_stepgroups : List StepGroupSpec) : StageDoc :=
  { name := sanitize_name stage_name,
    identifier := sanitize_identifier stage_name,
    deploymentType := normalize_deployment_type deployment_type,
    serviceRef := svc_identifier,
    stepGroups := matched_stepgroups.map fun sg =>
      { name := sanitize_name sg.name, identifier := sanitize_identifier sg.name,
        templateRef := sg.templateRef, versionLabel := sg.versionLabel,
        templateInputs := sg.templateInputs } }

def build_pipeline_payload (pipeline_name pipeline_id org proj : String)
    (stages : List StageDoc) (pipeline_tags : List (String × String)) : PipelineDoc :=
  { name := sanitize_name pipeline_name, identifier := sanitize_identifier pipeline_id,
    orgIdentifier := some org, projectIdentifier := some proj,
    tags := pipeline_tags, stages := stages }

/-- The repair applied by `_walk_fix_ids_and_names` to an identifier field. -/
def fix_identifier (s : String) : String :=
  if matchesIdRe s.data then s else sanitize_identifier s

/-- The repair applied by `_walk_fix_ids_and_names` to a name field. -/
def fix_name (s : String) : String :=
  if matchesNmRe s.data then s else sanitize_name s

/-- The effect of `write_yaml` on a service payload: `ensure_meta` injects
the missing org and project identifiers, re-sanitizes the top-level name and
repairs an invalid top-level identifier, then the tree walk repairs any
remaining invalid name or identifier field (here specialized to the fields of
the typed document; the tag mapping is treated as opaque data). -/
def write_service_doc (d : ServiceDoc) (org proj : String) : ServiceDoc :=
  let d1 := { d with
    orgIdentifier := some (d.orgIdentifier.getD org),
    projectIdentifier := some (d.projectIdentifier.getD proj),
    name := sanitize_name d.name,
    identifier := fix_identifier d.identifier }
  { d1 with name := fix_name d1.name, identifier := fix_identifier d1.identifier }

/-- The effect of `write_yaml` on a pipeline payload, as for services; the
tree walk also visits every stage and step-group block. -/
def write_pipeline_doc (d : PipelineDoc) (org proj : String) : PipelineDoc :=
  let d1 := { d with
    orgIdentifier := some (d.orgIdentifier.getD org),
    projectIdentifier := some (d.projectIdentifier.getD proj),
    name := sanitize_name d.name,
    identifier := fix_identifier d.identifier }
  { d1 with
    name := fix_name d1.name,
    identifier := fix_identifier d1.identifier,
    stages := d1.stages.map fun st =>
      { st with
        name := fix_name st.name,
        identifier := fix_identifier st.identifier,
        stepGroups := st.stepGroups.map fun sg =>
          { sg with name := fix_name sg.name, identifier := fix_identifier sg.identifier } } }

structure Component where
  name : String
  tags : List TagObj
  deriving DecidableEq

structure Application where
  name : String
  tags : List TagObj
  components : List Component
  deriving DecidableEq

/-- The per-application body of the main loop (source lines 461-501), with
the file writes replaced by returning the written documents: one service
document per component and exactly one pipeline document whose stages are in
component order.  An absent or falsy name is replaced by the defaults
`Application` and `Component` as in the source. -/
def convert_application (rx : RegexOracle) (app : Application) (registry : List Rule)
    (first_match : Bool) (org proj : String) : List ServiceDoc × PipelineDoc :=
  let app_name := if app.name.isEmpty then "Application" else app.name
  let app_tags_flat := collect_tags_flat app.tags
  let app_tags_map := collect_tags_map app.tags
  let pairs := app.components.map fun comp =>
    let comp_name := if comp.name.isEmpty then "Component" else comp.name
    let comp_tags_flat := collect_tags_flat comp.tags
    let comp_tags_map := collect_tags_map comp.tags
    let svc_identifier := sanitize_identifier (app_name ++ "_" ++ comp_name)
    let svc := write_service_doc
      (build_service_payload comp_name svc_identifier (dictMerge app_tags_map comp_tags_map))
      org proj
    let matched := match_stepgroups_for_component rx app_name comp_name
      app_tags_flat comp_tags_flat registry first_match
    let deployment_type := infer_deployment_type app_tags_flat comp_tags_flat
    let stage := build_stage_for_component svc_identifier comp_name deployment_type matched
    (svc, stage)
  let stages := pairs.map Prod.snd
  let pipeline := write_pipeline_doc
    (build_pipeline_payload (app_name ++ " deploy") (app_name ++ "_deploy") org proj
      stages app_tags_map)
    org proj
  (pairs.map Prod.fst, pipeline)

def ordersApp : Application :=
  { name := "Orders", tags := [.tagStr "env:prod"],
    components := [{ name := "api", tags := [] }, { name := "worker", tags := [] }] }

/-! ## Helper lemmas -/

theorem dictSet_mem {d : List (String × String)} {k v : String} {pr : String × String}
    (h : pr ∈ dictSet d k v) : pr ∈ d ∨ pr = (k, v) := by
  unfold dictSet at h
  split at h
  · obtain ⟨q, hq, hqe⟩ := List.mem_map.mp h
    by_cases hq1 : q.1 = k
    · right
      simp only [if_pos hq1] at hqe
      rw [← hqe]
      simp [hq1]
    · left
      simp only [if_neg hq1] at hqe
      rwa [← hqe]
  · rcases List.mem_append.mp h with h1 | h1
    · exact Or.inl h1
    · right
      simpa using h1

theorem mem_dropWhile {p : Char → Bool} : ∀ {l : List Char} {c : Char},
    c ∈ List.dropWhile p l → c ∈ l
  | [], _, h => h
  | d :: ds, c, h => by
    cases hd : p d with
    | true =>
      rw [List.dropWhile_cons, if_pos hd] at h
      exact List.mem_cons_of_mem d (mem_dropWhile h)
    | false =>
      rwa [List.dropWhile_cons, if_neg (by simp [hd])] at h

theorem mem_dropTrailing {p : Char → Bool} : ∀ {l : List Char} {c : Char},
    c ∈ dropTrailing p l → c ∈ l
  | d :: ds, c, h => by
    simp only [dropTrailing] at h
    split at h
    · exact absurd h (List.not_mem_nil c)
    · rcases List.mem_cons.mp h with h1 | h1
      · exact h1 ▸ List.mem_cons_self d ds
      · exact List.mem_cons_of_mem d (mem_dropTrailing h1)

theorem mem_pyStripP {p : Char → Bool} {l : List Char} {c : Char}
    (h : c ∈ pyStripP p l) : c ∈ l :=
  mem_dropWhile (mem_dropTrailing h)

theorem head_dropWhile {p : Char → Bool} : ∀ {l : List Char} {c : Char} {cs : List Char},
    List.dropWhile p l = c :: cs → p c = false
  | [], _, _, h => by simp at h
  | d :: ds, c, cs, h => by
    cases hd : p d with
    | true =>
      rw [List.dropWhile_cons, if_pos hd] at h
      exact head_dropWhile h
    | false =>
      rw [List.dropWhile_cons, if_neg (by simp [hd])] at h
      cases h
      exact hd

theorem isEmpty_append_cons (a : List Char) (m : Char) (b : List Char) :
    (a ++ m :: b).isEmpty = false := by
  cases a <;> simp [List.isEmpty]

theorem dropWhile_append_mid {p : Char → Bool} {m : Char} (hm : p m = false) :
    ∀ (a b : List Char), List.dropWhile p (a ++ m :: b) = List.dropWhile p a ++ m :: b
  | [], b => by
    simp only [List.nil_append, List.dropWhile_cons, List.dropWhile_nil]
    rw [if_neg (by simp [hm])]
  | c :: cs, b => by
    cases hc : p c with
    | true =>
      rw [List.cons_append, List.dropWhile_cons, if_pos hc, List.dropWhile_cons, if_pos hc,
        dropWhile_append_mid hm cs b]
    | false =>
      rw [List.cons_append, List.dropWhile_cons, if_neg (by simp [hc]), List.dropWhile_cons,
        if_neg (by simp [hc]), List.cons_append]

theorem dropTrailing_append_mid {p : Char → Bool} {m : Char} (hm : p m = false) :
    ∀ (a b : List Char), dropTrailing p (a ++ m :: b) = a ++ m :: dropTrailing p b
  | [], b => by
    simp only [List.nil_append, dropTrailing]
    rw [if_neg (by simp [hm])]
  | c :: cs, b => by
    have ih := dropTrailing_append_mid hm cs b
    rw [List.cons_append]
    simp only [dropTrailing, ih]
    rw [if_neg (by simp [isEmpty_append_cons]), List.cons_append]

theorem dropWhile_idem {p : Char → Bool} (l : List Char) :
    List.dropWhile p (List.dropWhile p l) = List.dropWhile p l := by
  cases h : List.dropWhile p l with
  | nil => simp
  | cons c cs =>
    rw [List.dropWhile_cons, if_neg (by simp [head_dropWhile h])]

theorem dropTrailing_eq_nil_iff {p : Char → Bool} : ∀ {l : List Char},
    dropTrailing p l = [] ↔ ∀ x ∈ l, p x = true
  | [] => by simp [dropTrailing]
  | c :: cs => by
    simp only [dropTrailing]
    constructor
    · intro h
      split at h
      · rename_i hcond
        simp only [Bool.and_eq_true, List.isEmpty_iff] at hcond
        intro x hx
        rcases List.mem_cons.mp hx with h1 | h1
        · exact h1 ▸ hcond.2
        · exact (dropTrailing_eq_nil_iff.mp hcond.1) x h1
      · exact absurd h (by simp)
    · intro h
      have h1 : dropTrailing p cs = [] :=
        dropTrailing_eq_nil_iff.mpr fun x hx => h x (List.mem_cons_of_mem c hx)
      rw [if_pos (by simp [h1, h c (List.mem_cons_self c cs)])]

theorem dropTrailing_idem {p : Char → Bool} : ∀ (l : List Char),
    dropTrailing p (dropTrailing p l) = dropTrailing p l
  | [] => rfl
  | c :: cs => by
    simp only [dropTrailing]
    by_cases hcond : ((dropTrailing p cs).isEmpty && p c) = true
    · rw [if_pos hcond]
      rfl
    · rw [if_neg hcond]
      simp only [dropTrailing, dropTrailing_idem cs]
      rw [if_neg hcond]

theorem dropWhile_dropTrailing_comm {p : Char → Bool} : ∀ (l : List Char),
    List.dropWhile p (dropTrailing p l) = dropTrailing p (List.dropWhile p l)
  | [] => rfl
  | c :: cs => by
    cases hc : p c with
    | false =>
      simp only [dropTrailing, List.dropWhile_cons]
      rw [if_neg (by simp [hc]), if_neg (by simp [hc])]
      simp only [dropTrailing, List.dropWhile_cons]
      rw [if_neg (by simp [hc]), if_neg (by simp [hc])]
    | true =>
      cases he : (dropTrailing p cs).isEmpty with
      | true =>
        have hnil : dropTrailing p cs = [] := List.isEmpty_iff.mp he
        have hall : ∀ x ∈ cs, p x = true := dropTrailing_eq_nil_iff.mp hnil
        have hwnil : List.dropWhile p cs = [] := List.dropWhile_eq_nil_iff.mpr hall
        simp only [dropTrailing, List.dropWhile_cons]
        rw [if_pos (by simp [he, hc]), if_pos hc, hwnil]
        rfl
      | false =>
        simp only [dropTrailing, List.dropWhile_cons]
        rw [if_neg (by simp [he]), if_pos hc]
        rw [List.dropWhile_cons, if_pos hc]
        exact dropWhile_dropTrailing_comm cs

theorem pyStrip_dropWhile (l : List Char) :
    pyStrip (List.dropWhile isPySpace l) = pyStrip l := by
  unfold pyStrip pyStripP
  rw [dropWhile_idem]

theorem pyStrip_dropTrailing (l : List Char) :
    pyStrip (dropTrailing isPySpace l) = pyStrip l := by
  unfold pyStrip pyStripP
  rw [dropWhile_dropTrailing_comm, dropTrailing_idem]

theorem splitFirst_eq_none {sep : Char} : ∀ {l : List Char}, sep ∉ l →
    splitFirst sep l = none
  | [], _ => rfl
  | c :: cs, h => by
    simp only [List.mem_cons, not_or] at h
    rw [splitFirst, if_neg (fun he => h.1 he.symm), splitFirst_eq_none h.2]

theorem splitFirst_append {sep : Char} : ∀ {a : List Char} (b : List Char), sep ∉ a →
    splitFirst sep (a ++ sep :: b) = some (a, b)
  | [], b, _ => by simp [splitFirst]
  | c :: cs, b, h => by
    simp only [List.mem_cons, not_or] at h
    rw [List.cons_append, splitFirst, if_neg (fun he => h.1 he.symm),
      splitFirst_append b h.2]

theorem subRunsAux_cons (p : Char → Bool) (r : Char) (flag : Bool) (c : Char)
    (cs : List Char) :
    subRunsAux p r flag (c :: cs) =
      if p c then
        (if flag then subRunsAux p r true cs else r :: subRunsAux p r true cs)
      else c :: subRunsAux p r false cs := rfl

theorem dropTrailing_cons (p : Char → Bool) (c : Char) (cs : List Char) :
    dropTrailing p (c :: cs) =
      if (dropTrailing p cs).isEmpty && p c then [] else c :: dropTrailing p cs := rfl

theorem idChar_not_space (c : Char) (h : idChar c = true) : isPySpace c = false := by
  cases hs : isPySpace c with
  | false => rfl
  | true =>
    exfalso
    simp only [idChar, Bool.or_eq_true, Bool.and_eq_true, decide_eq_true_eq] at h
    simp only [isPySpace, Bool.or_eq_true, Bool.and_eq_true, decide_eq_true_eq] at hs
    omega

theorem idStart_idChar (c : Char) (h : idStart c = true) : idChar c = true := by
  simp only [idStart, Bool.or_eq_true, Bool.and_eq_true, decide_eq_true_eq] at h
  simp only [idChar, Bool.or_eq_true, Bool.and_eq_true, decide_eq_true_eq]
  omega

theorem dropWhile_noop {p : Char → Bool} : ∀ {l : List Char},
    (∀ x ∈ l, p x = false) → List.dropWhile p l = l
  | [], _ => rfl
  | c :: cs, h => by
    rw [List.dropWhile_cons, if_neg (by simp [h c (List.mem_cons_self c cs)])]

theorem dropTrailing_noop {p : Char → Bool} : ∀ {l : List Char},
    (∀ x ∈ l, p x = false) → dropTrailing p l = l
  | [], _ => rfl
  | c :: cs, h => by
    have ih : dropTrailing p cs = cs :=
      dropTrailing_noop fun x hx => h x (List.mem_cons_of_mem c hx)
    simp only [dropTrailing, ih]
    rw [if_neg (by simp [h c (List.mem_cons_self c cs)])]

theorem pyStripP_noop {p : Char → Bool} {l : List Char}
    (h : ∀ x ∈ l, p x = false) : pyStripP p l = l := by
  unfold pyStripP
  rw [dropWhile_noop h, dropTrailing_noop h]

theorem subRunsAux_noop {p : Char → Bool} {r : Char} : ∀ (flag : Bool) {l : List Char},
    (∀ x ∈ l, p x = false) → subRunsAux p r flag l = l
  | _, [], _ => rfl
  | flag, c :: cs, h => by
    simp only [subRunsAux]
    rw [if_neg (by simp [h c (List.mem_cons_self c cs)]),
      subRunsAux_noop false fun x hx => h x (List.mem_cons_of_mem c hx)]

theorem dropTrailing_noop_last {p : Char → Bool} : ∀ {l : List Char},
    (∀ x, l.getLast? = some x → p x = false) → dropTrailing p l = l
  | [], _ => rfl
  | [c], h => by
    simp only [dropTrailing]
    rw [if_neg (by simp [h c rfl])]
  | c :: d :: ds, h => by
    have ih : dropTrailing p (d :: ds) = d :: ds :=
      dropTrailing_noop_last fun x hx => h x (by rw [List.getLast?_cons_cons]; exact hx)
    rw [dropTrailing_cons, ih, if_neg (by simp)]

theorem pyStripP_noop_ends {p : Char → Bool} {c : Char} {cs : List Char}
    (hh : p c = false) (hl : ∀ x, (c :: cs).getLast? = some x → p x = false) :
    pyStripP p (c :: cs) = c :: cs := by
  unfold pyStripP
  rw [List.dropWhile_cons, if_neg (by simp [hh]), dropTrailing_noop_last hl]

theorem collapseAux_noop : ∀ (l : List Char), hasDoubleUnderscore l = false →
    (subRunsAux (fun c => c = '_') '_' false l = l ∧
     ((l.head? = some '_' → False) → subRunsAux (fun c => c = '_') '_' true l = l))
  | [], _ => ⟨rfl, fun _ => rfl⟩
  | [c], _ => by
    constructor
    · by_cases hc : c = '_'
      · subst hc
        rfl
      · rw [subRunsAux_cons, if_neg (by simp [hc])]
        rfl
    · intro hh
      have hc : ¬(c = '_') := fun he => hh (by simp [he])
      rw [subRunsAux_cons, if_neg (by simp [hc])]
      rfl
  | c :: d :: ds, h => by
    simp only [hasDoubleUnderscore, Bool.or_eq_false_iff, Bool.and_eq_false_iff] at h
    have ih := collapseAux_noop (d :: ds) h.2
    constructor
    · by_cases hc : c = '_'
      · have hd2 : ¬(d = '_') := by
          rcases h.1 with h1 | h1
          · rw [hc] at h1
            simp at h1
          · simp at h1
            exact h1
        rw [subRunsAux_cons, if_pos (by simp [hc]), if_neg (by simp),
          ih.2 (by simp [hd2]), hc]
      · rw [subRunsAux_cons, if_neg (by simp [hc]), ih.1]
    · intro hh
      have hc : ¬(c = '_') := fun he => hh (by simp [he])
      rw [subRunsAux_cons, if_neg (by simp [hc]), ih.1]

theorem sanitizeIdCore_noop (c : Char) (cs : List Char)
    (hv : matchesIdRe (c :: cs) = true)
    (hd : hasDoubleUnderscore (c :: cs) = false)
    (hh : (c :: cs).head? = some '_' → False)
    (hl : (c :: cs).getLast? = some '_' → False) :
    sanitizeIdCore (c :: cs) = c :: cs := by
  have hv2 := hv
  simp only [matchesIdRe, Bool.and_eq_true, decide_eq_true_eq] at hv2
  obtain ⟨⟨hstart, hall⟩, hlen⟩ := hv2
  have hallc : ∀ x ∈ c :: cs, idChar x = true := by
    intro x hx
    rcases List.mem_cons.mp hx with h1 | h1
    · exact h1 ▸ idStart_idChar c hstart
    · exact List.all_eq_true.mp hall x h1
  have hnospace : ∀ x ∈ c :: cs, isPySpace x = false := fun x hx =>
    idChar_not_space x (hallc x hx)
  have hcu : ¬(c = '_') := fun he => hh (by simp [he])
  have h1 : pyStrip (c :: cs) = c :: cs := by
    unfold pyStrip
    exact pyStripP_noop hnospace
  have h2 : subRuns (fun x => !idChar x) '_' (c :: cs) = c :: cs :=
    subRunsAux_noop false fun x hx => by simp [hallc x hx]
  have h4a : subRuns (fun x => x = '_') '_' (c :: cs) = c :: cs :=
    (collapseAux_noop (c :: cs) hd).1
  have h4b : stripUnderscores (c :: cs) = c :: cs := by
    unfold stripUnderscores
    refine pyStripP_noop_ends (by simp [hcu]) fun x hx => ?_
    by_cases hxe : x = '_'
    · rw [hxe] at hx
      exact absurd hx hl
    · simp [hxe]
  have h4c : (c :: cs).take 128 = c :: cs := by
    refine List.take_of_length_le ?_
    simp only [List.length_cons]
    omega
  simp [sanitizeIdCore, h1, h2, h4a, h4b, h4c, hv, hstart, List.headD_cons]

theorem subRunsAux_mem {p : Char → Bool} {r : Char} : ∀ (flag : Bool) {l : List Char}
    {c : Char}, c ∈ subRunsAux p r flag l → c = r ∨ (c ∈ l ∧ p c = false)
  | _, [], _, h => absurd h (List.not_mem_nil _)
  | flag, d :: ds, c, h => by
    rw [subRunsAux_cons] at h
    by_cases hd : p d = true
    · rw [if_pos hd] at h
      have h3 : c ∈ r :: subRunsAux p r true ds := by
        cases flag with
        | true => exact List.mem_cons_of_mem r (by simpa using h)
        | false => simpa using h
      rcases List.mem_cons.mp h3 with h4 | h4
      · exact Or.inl h4
      · rcases subRunsAux_mem true h4 with h5 | h5
        · exact Or.inl h5
        · exact Or.inr ⟨List.mem_cons_of_mem d h5.1, h5.2⟩
    · rw [if_neg hd] at h
      have hdf : p d = false := by
        cases hpb : p d with
        | false => rfl
        | true => exact absurd hpb hd
      rcases List.mem_cons.mp h with h4 | h4
      · refine Or.inr ⟨by rw [h4]; exact List.mem_cons_self d ds, ?_⟩
        rw [h4]
        exact hdf
      · rcases subRunsAux_mem false h4 with h5 | h5
        · exact Or.inl h5
        · exact Or.inr ⟨List.mem_cons_of_mem d h5.1, h5.2⟩

theorem dropTrailing_head {p : Char → Bool} : ∀ {l : List Char} {c : Char} {cs : List Char},
    dropTrailing p l = c :: cs → l.head? = some c
  | [], _, _, h => by simp [dropTrailing] at h
  | d :: ds, c, cs, h => by
    rw [dropTrailing_cons] at h
    by_cases hcond : ((dropTrailing p ds).isEmpty && p d) = true
    · rw [if_pos hcond] at h
      exact absurd h (by simp)
    · rw [if_neg hcond] at h
      injection h with h1 h2
      rw [List.head?_cons, h1]

theorem pyStripP_head {p : Char → Bool} {l : List Char} {c : Char} {cs : List Char}
    (h : pyStripP p l = c :: cs) : p c = false := by
  unfold pyStripP at h
  have h2 := dropTrailing_head h
  cases hw : List.dropWhile p l with
  | nil =>
    rw [hw] at h2
    simp at h2
  | cons d ds =>
    rw [hw, List.head?_cons] at h2
    injection h2 with h3
    exact h3 ▸ head_dropWhile hw

theorem nameFirst_not_space (c : Char) (h : nameFirstChar c = true) :
    isPySpace c = false := by
  cases hs : isPySpace c with
  | false => rfl
  | true =>
    exfalso
    simp only [nameFirstChar, idChar, Bool.or_eq_true, Bool.and_eq_true,
      decide_eq_true_eq] at h
    simp only [isPySpace, Bool.or_eq_true, Bool.and_eq_true, decide_eq_true_eq] at hs
    omega

theorem nameKeep_not_space (c : Char) (h1 : nameKeepChar c = true)
    (h2 : isPySpace c = false) : nameFirstChar c = true := by
  simp only [nameKeepChar, h2, Bool.or_false] at h1
  simpa [nameFirstChar] using h1

theorem nameFirst_nameRest (c : Char) (h : nameFirstChar c = true) :
    nameRestChar c = true := by
  simp [nameRestChar, h]

theorem nameFirst_not_forbidden (c : Char) (h : nameFirstChar c = true) :
    (c = '/' || c = '\\' || c = '(' || c = ')') = false := by
  cases he : (c = '/' || c = '\\' || c = '(' || c = ')') with
  | false => rfl
  | true =>
    exfalso
    simp only [Bool.or_eq_true, decide_eq_true_eq] at he
    rcases he with ((he | he) | he) | he <;> subst he <;> exact absurd h (by decide)

theorem stage3_mem (s2 : List Char) :
    ∀ x ∈ subRuns (fun c => !nameKeepChar c) ' ' s2, x = ' ' ∨ nameKeepChar x = true := by
  intro x hx
  rcases subRunsAux_mem false hx with h1 | h1
  · exact Or.inl h1
  · right
    simpa using h1.2

theorem stageA_mem (s3 : List Char)
    (h3 : ∀ x ∈ s3, x = ' ' ∨ nameKeepChar x = true) :
    ∀ x ∈ subRuns isPySpace ' ' s3, x = ' ' ∨ nameFirstChar x = true := by
  intro x hx
  rcases subRunsAux_mem false hx with h1 | h1
  · exact Or.inl h1
  · rcases h3 x h1.1 with h2 | h2
    · exact Or.inl h2
    · exact Or.inr (nameKeep_not_space x h2 h1.2)

theorem stage4_mem (A : List Char)
    (hA : ∀ x ∈ A, x = ' ' ∨ nameFirstChar x = true) :
    (∀ x ∈ pyStrip A, x = ' ' ∨ nameFirstChar x = true) ∧
    (∀ c cs, pyStrip A = c :: cs → nameFirstChar c = true) := by
  constructor
  · exact fun x hx => hA x (mem_pyStripP hx)
  · intro c cs h
    have h2 : pyStripP isPySpace A = c :: cs := h
    have hsp : isPySpace c = false := pyStripP_head h2
    have hc : c ∈ A := mem_pyStripP (by rw [h2]; exact List.mem_cons_self c cs)
    rcases hA c hc with h1 | h1
    · subst h1
      exact absurd hsp (by decide)
    · exact h1

theorem sanitizeNmFinish_valid : ∀ (s4 : List Char),
    (∀ x ∈ s4, x = ' ' ∨ nameFirstChar x = true) →
    (∀ c cs, s4 = c :: cs → nameFirstChar c = true) →
    matchesNmRe (sanitizeNmFinish s4) = true ∧
    (sanitizeNmFinish s4).length ≤ 128 ∧
    (∀ x ∈ sanitizeNmFinish s4, x = ' ' ∨ nameFirstChar x = true)
  | [], _, _ => by decide
  | c :: cs, hmem, hhead => by
    have hc : nameFirstChar c = true := hhead c cs rfl
    have htake : (c :: cs).take 128 = c :: cs.take 127 := by
      rw [show (128 : Nat) = 127 + 1 from rfl, List.take_succ_cons]
    have hall : (cs.take 127).all nameRestChar = true := by
      refine List.all_eq_true.mpr fun x hx => ?_
      have hxs : x ∈ c :: cs := List.mem_cons_of_mem c (List.take_subset 127 cs hx)
      rcases hmem x hxs with h1 | h1
      · rw [h1]
        decide
      · exact nameFirst_nameRest x h1
    have hlen : (cs.take 127).length ≤ 127 := by
      simp [List.length_take]
    have hm2 : matchesNmRe (c :: cs.take 127) = true := by
      simp [matchesNmRe, hc, hall, hlen]
    have hfin : sanitizeNmFinish (c :: cs) = c :: cs.take 127 := by
      dsimp only [sanitizeNmFinish]
      simp [htake, hm2]
    refine ⟨by rw [hfin]; exact hm2, ?_, ?_⟩
    · rw [hfin]
      simp only [List.length_cons, List.length_take]
      omega
    · intro x hx
      rw [hfin] at hx
      rcases List.mem_cons.mp hx with h1 | h1
      · exact h1 ▸ Or.inr hc
      · exact hmem x (List.mem_cons_of_mem c (List.take_subset 127 cs h1))

theorem sanitizeNmCore_valid (l : List Char) :
    matchesNmRe (sanitizeNmCore l) = true ∧
    (sanitizeNmCore l).length ≤ 128 ∧
    (∀ x ∈ sanitizeNmCore l, x = ' ' ∨ nameFirstChar x = true) := by
  unfold sanitizeNmCore
  exact sanitizeNmFinish_valid _
    (stage4_mem _ (stageA_mem _ (stage3_mem _))).1
    (stage4_mem _ (stageA_mem _ (stage3_mem _))).2

theorem pyStrip_append_colon (k v : List Char) :
    pyStrip (k ++ ':' :: v) =
      List.dropWhile isPySpace k ++ ':' :: dropTrailing isPySpace v := by
  unfold pyStrip pyStripP
  rw [dropWhile_append_mid (show isPySpace ':' = false by decide) k v,
    dropTrailing_append_mid (show isPySpace ':' = false by decide) _ v]

theorem parse_tag_no_colon (raw : String) (h : ':' ∈ raw.data → False) :
    _parse_tag raw = (⟨pyStrip raw.data⟩, "true") := by
  unfold _parse_tag pyStrip
  rw [splitFirst_eq_none fun hm => h (mem_pyStripP hm)]

theorem parse_tag_split (k v : String) (hk : ':' ∈ k.data → False) :
    _parse_tag (k ++ ":" ++ v) = (⟨pyStrip k.data⟩, ⟨pyStrip v.data⟩) := by
  have hcolon : (":" : String).data = [':'] := rfl
  have hd : (k ++ ":" ++ v).data = k.data ++ ':' :: v.data := by
    rw [String.data_append, String.data_append, hcolon, List.append_assoc]
    rfl
  unfold _parse_tag
  rw [hd, pyStrip_append_colon,
    splitFirst_append (dropTrailing isPySpace v.data) fun hm => hk (mem_dropWhile hm)]
  dsimp only
  rw [pyStrip_dropWhile, pyStrip_dropTrailing]

theorem collect_foldl_mem :
    ∀ (ts : List TagObj) (acc : List (String × String)) (pr : String × String),
      pr ∈ ts.foldl
        (fun tags t =>
          let kv := _parse_tag (rawName t)
          if kv.1.isEmpty then tags else dictSet tags kv.1 kv.2) acc →
      pr ∈ acc ∨ ∃ t ∈ ts, _parse_tag (rawName t) = pr ∧ pr.1.isEmpty = false
  | [], _, _, h => Or.inl h
  | t :: ts, acc, pr, h => by
    simp only [List.foldl_cons] at h
    rcases collect_foldl_mem ts _ pr h with h1 | h1
    · have h2 : pr ∈ (if (_parse_tag (rawName t)).1.isEmpty then acc
        else dictSet acc (_parse_tag (rawName t)).1 (_parse_tag (rawName t)).2) := h1
      by_cases he : (_parse_tag (rawName t)).1.isEmpty
      · rw [if_pos he] at h2
        exact Or.inl h2
      · rw [if_neg he] at h2
        rcases dictSet_mem h2 with h3 | h3
        · exact Or.inl h3
        · refine Or.inr ⟨t, List.mem_cons_self t ts, ?_, ?_⟩
          · rw [h3]
          · rw [h3]
            simpa using he
    · obtain ⟨u, hu, hup⟩ := h1
      exact Or.inr ⟨u, List.mem_cons_of_mem t hu, hup⟩

/-! ## Claims -/

/-- Claim C10: every entry of the collected tag mapping has a non-empty key
and is the parse of some tag in the input list (so the literal key `tag` is
never substituted: it can appear only when some raw tag parses to it), and a
tag whose parsed key is empty contributes nothing to the mapping. -/
theorem C10_theorem :
    (∀ (ts : List TagObj) (pr : String × String), pr ∈ collect_tags_map ts →
      pr.1.isEmpty = false ∧ ∃ t ∈ ts, _parse_tag (rawName t) = pr) ∧
    (∀ (t : TagObj) (ts : List TagObj), (_parse_tag (rawName t)).1.isEmpty = true →
      collect_tags_map (t :: ts) = collect_tags_map ts) := by
  constructor
  · intro ts pr h
    rcases collect_foldl_mem ts [] pr h with h1 | h1
    · simp at h1
    · obtain ⟨t, ht, he, hne⟩ := h1
      exact ⟨hne, t, ht, he⟩
  · intro t ts he
    unfold collect_tags_map
    rw [List.foldl_cons]
    congr 1
    show (if (_parse_tag (rawName t)).1.isEmpty then ([] : List (String × String))
      else dictSet [] (_parse_tag (rawName t)).1 (_parse_tag (rawName t)).2) = []
    rw [if_pos he]

/-- Witness for C10: the tag `a:1` contributes its parse, and the
empty-key tag `:value` is dropped. -/
theorem C10_witness :
    ("a", "1") ∈ collect_tags_map [TagObj.tagStr "a:1"] ∧
    ((("a", "1") : String × String).1.isEmpty = false ∧
      ∃ t ∈ [TagObj.tagStr "a:1"], _parse_tag (rawName t) = ("a", "1")) ∧
    collect_tags_map [TagObj.tagStr ":value"] = collect_tags_map [] := by
  have hmem : ("a", "1") ∈ collect_tags_map [TagObj.tagStr "a:1"] := by decide
  exact ⟨hmem, C10_theorem.1 [TagObj.tagStr "a:1"] ("a", "1") hmem,
    C10_theorem.2 (TagObj.tagStr ":value") [] (by decide)⟩

/-- Claim C1 as stated is false on the code: the `tags_any` clause intersects
the lowercased raw tag strings with the lowercased rule entries as whole
strings, so the tag `java:8` (and likewise `uses:java`) does not intersect
the rule set containing only `java`, and the rule is not matched. -/
theorem C1_counterexample :
    match_stepgroups_for_component noRx "App" "comp" [] ["java:8"] [javaRule] false = [] ∧
    match_stepgroups_for_component noRx "App" "comp" [] ["uses:java"] [javaRule] false = [] := by
  decide

/-- Claim C1 amended: a rule whose match clause is `tags_any` with the single
entry `java` matches a component exactly tagged `java` (case-insensitively,
whole-string comparison) and matches neither `java:8` (no key matching), nor
`uses:java` (no value matching), nor `javascript`. -/
theorem C1_amended :
    match_stepgroups_for_component noRx "App" "comp" [] ["java"] [javaRule] false =
      [{ name := "JavaSG", templateRef := some "acct.java_sg", versionLabel := "v1",
         templateInputs := none }] ∧
    match_stepgroups_for_component noRx "App" "comp" [] ["JAVA"] [javaRule] false =
      [{ name := "JavaSG", templateRef := some "acct.java_sg", versionLabel := "v1",
         templateInputs := none }] ∧
    match_stepgroups_for_component noRx "App" "comp" [] ["java:8"] [javaRule] false = [] ∧
    match_stepgroups_for_component noRx "App" "comp" [] ["uses:java"] [javaRule] false = [] ∧
    match_stepgroups_for_component noRx "App" "comp" [] ["javascript"] [javaRule] false = [] := by
  decide

/-- Claim C2 as stated is false on the code: the synonym table is iterated in
insertion order and the Cloud-Foundry keys come before the Windows keys, so
tags containing both `pcf` and `IIS` classify as TAS, not WinRm. -/
theorem C2_counterexample :
    infer_deployment_type ["pcf"] ["IIS"] = "TAS" ∧ ("TAS" : String) ≠ "WinRm" := by
  decide

/-- Claim C2 amended: the classifier scans the synonym table in insertion
order, where the Cloud-Foundry keys precede the Windows keys, so a tag text
containing `iis` (case-insensitively) classifies as WinRm only when none of
the Cloud-Foundry keywords `pcf`, `tanzu`, `cloud foundry`, `tas` occurs in
it (not regardless of all other tags); a text containing `pcf` classifies as
TAS (whether or not a Windows marker is present); and a text containing no
keyword of the table yields CustomDeployment. -/
theorem C2_amended (a c : List String) :
    (strContains (dt_hay a c) "iis" = true →
     strContains (dt_hay a c) "pcf" = false →
     strContains (dt_hay a c) "tanzu" = false →
     strContains (dt_hay a c) "cloud foundry" = false →
     strContains (dt_hay a c) "tas" = false →
     infer_deployment_type a c = "WinRm") ∧
    (strContains (dt_hay a c) "pcf" = true → infer_deployment_type a c = "TAS") ∧
    ((SYNONYMS.all fun kv => !strContains (dt_hay a c) kv.1) = true →
     infer_deployment_type a c = "CustomDeployment") := by
  refine ⟨?_, ?_, ?_⟩
  · intro hiis hpcf htan hcf htas
    cases hw : strContains (dt_hay a c) "windows" <;>
      cases hwr : strContains (dt_hay a c) "winrm" <;>
        simp [infer_deployment_type, SYNONYMS, synLookup, hiis, hpcf, htan, hcf, htas,
          hw, hwr]
  · intro hpcf
    simp [infer_deployment_type, SYNONYMS, synLookup, hpcf]
  · intro hall
    simp only [SYNONYMS, List.all_cons, List.all_nil, Bool.and_eq_true,
      Bool.not_eq_true'] at hall
    obtain ⟨h1, h2, h3, h4, h5, h6, h7, h8, h9, h10, ⟨h11, -⟩⟩ := hall
    simp [infer_deployment_type, SYNONYMS, synLookup, h1, h2, h3, h4, h5, h6, h7, h8,
      h9, h10, h11]

/-- Witness for C2 amended, one instance per conjunct. -/
theorem C2_witness :
    infer_deployment_type ["x"] ["IIS"] = "WinRm" ∧
    infer_deployment_type ["pcf"] ["IIS"] = "TAS" ∧
    infer_deployment_type ["env:prod"] [] = "CustomDeployment" := by
  refine ⟨?_, ?_, ?_⟩
  · exact (C2_amended ["x"] ["IIS"]).1 (by decide) (by decide) (by decide) (by decide)
      (by decide)
  · exact (C2_amended ["pcf"] ["IIS"]).2.1 (by decide)
  · exact (C2_amended ["env:prod"] []).2.2 (by decide)

/-- Claim C3 states the intended invariant (the last-resort branch of the
sanitizer carries the comment `ensure valid start`), but the code strips the
guard underscore it just prefixed: an input starting with a digit is returned
starting with a digit, violating the identifier grammar. -/
theorem C3_code_bug :
    sanitize_identifier "9abc" = "9abc" ∧ matchesIdRe "9abc".data = false := by
  decide

/-- Claim C4 as stated is false on the code: `_abc` matches the identifier
grammar, yet the sanitizer strips its leading underscore. -/
theorem C4_counterexample :
    matchesIdRe "_abc".data = true ∧ sanitize_identifier "_abc" = "abc" ∧
    ("abc" : String) ≠ "_abc" := by
  decide

/-- Claim C8 as stated is false on the code: `load_registry` has no handler
around the YAML parse, so a registry file whose content fails to parse
propagates the error and the run terminates (the call in `main` is also
unguarded). -/
theorem C8_counterexample :
    load_registry (some ".harness/template-registry.yaml") fsBadYaml =
      .error "ScannerError" ∧
    load_registry (some ".harness/template-registry.yaml") fsBadYaml ≠
      .ok [] := by
  refine ⟨rfl, ?_⟩
  rw [show load_registry (some ".harness/template-registry.yaml") fsBadYaml =
    .error "ScannerError" from rfl]
  exact fun h => Except.noConfusion h

/-- Claim C8 amended: a missing registry path, or a path whose file does not
exist, yields the empty rule list without an error; but a file whose content
is invalid (the YAML parse raises) propagates that error and terminates the
run. -/
theorem C8_amended (fs : String → Option (Except String Yaml)) (p e : String)
    (hp : p.isEmpty = false) :
    load_registry none fs = .ok [] ∧
    (fs p = none → load_registry (some p) fs = .ok []) ∧
    (fs p = some (.error e) → load_registry (some p) fs = .error e) := by
  refine ⟨rfl, fun hfs => ?_, fun hfs => ?_⟩ <;> simp [load_registry, hp, hfs]

/-- Witness for C8 amended at a concrete filesystem. -/
theorem C8_amended_witness :
    load_registry none (fun _ => none) = .ok [] ∧
    load_registry (some "reg.yaml") (fun _ => none) = .ok [] ∧
    load_registry (some "reg.yaml") fsBadYaml = .error "ScannerError" := by
  have h1 := C8_amended (fun _ => none) "reg.yaml" "ScannerError" (by decide)
  have h2 := C8_amended fsBadYaml "reg.yaml" "ScannerError" (by decide)
  exact ⟨h1.1, h1.2.1 rfl, h2.2.2 rfl⟩

/-- Claim C4 amended: sanitizing a string that matches the identifier grammar
returns it unchanged provided the string has no leading underscore, no
trailing underscore, and no two consecutive underscores; the underscore-run
collapsing and the underscore strip rewrite the remaining valid identifiers. -/
theorem C4_amended (s : String) (hv : matchesIdRe s.data = true)
    (hd : hasDoubleUnderscore s.data = false)
    (hh : s.data.head? = some '_' → False)
    (hl : s.data.getLast? = some '_' → False) :
    sanitize_identifier s = s := by
  obtain ⟨c, cs, he⟩ : ∃ c cs, s.data = c :: cs := by
    cases hsd : s.data with
    | nil =>
      rw [hsd] at hv
      simp [matchesIdRe] at hv
    | cons c cs => exact ⟨c, cs, rfl⟩
  have hcore : sanitizeIdCore s.data = s.data := by
    rw [he]
    exact sanitizeIdCore_noop c cs (he ▸ hv) (he ▸ hd) (he ▸ hh) (he ▸ hl)
  unfold sanitize_identifier
  rw [hcore]

/-- Witness for C4 amended at a concrete valid identifier. -/
theorem C4_amended_witness :
    matchesIdRe "a_b9".data = true ∧ hasDoubleUnderscore "a_b9".data = false ∧
    sanitize_identifier "a_b9" = "a_b9" :=
  ⟨by decide, by decide, C4_amended "a_b9" (by decide) (by decide) (by decide) (by decide)⟩

/-- Claim C5: for every input string the sanitized name matches the name
grammar NM_RE, has length at most 128, and contains none of the characters
slash, backslash, and the two parentheses (its characters are single spaces
and NM_RE head-class characters, so the collapsing pipeline already yields a
valid name and the repair branches never run). -/
theorem C5_theorem (s : String) :
    matchesNmRe (sanitize_name s).data = true ∧
    (sanitize_name s).length ≤ 128 ∧
    ((sanitize_name s).data.all fun c =>
      !(c = '/' || c = '\\' || c = '(' || c = ')')) = true := by
  have h := sanitizeNmCore_valid s.data
  refine ⟨h.1, h.2.1, ?_⟩
  refine List.all_eq_true.mpr fun x hx => ?_
  rcases h.2.2 x hx with h1 | h1
  · rw [h1]
    decide
  · simp [nameFirst_not_forbidden x h1]

/-- Claim C6 fails on the code for empty value parts: a tag whose value part
is empty, such as `key:`, keeps the empty string as its value; only a tag
containing no colon at all receives the value `true`. -/
theorem C6_counterexample :
    _parse_tag "key:" = ("key", "") ∧ ("" : String) ≠ "true" := by
  decide

/-- Claim C6 amended: a raw tag with no colon parses to the whole stripped
tag with value `true`; a raw tag of the form key-colon-value (no colon in
the key part) splits at that first colon with whitespace trimmed on both
sides, keeping an empty value part as the empty string (`key:` parses to key
`key` with value the empty string, not `true`); `env:prod` parses to
(`env`, `prod`) and `smoke` to (`smoke`, `true`). -/
theorem C6_amended :
    (∀ raw : String, (':' ∈ raw.data → False) →
      _parse_tag raw = (⟨pyStrip raw.data⟩, "true")) ∧
    (∀ k v : String, (':' ∈ k.data → False) →
      _parse_tag (k ++ ":" ++ v) = (⟨pyStrip k.data⟩, ⟨pyStrip v.data⟩)) ∧
    _parse_tag "key:" = ("key", "") ∧
    _parse_tag "env:prod" = ("env", "prod") ∧
    _parse_tag "smoke" = ("smoke", "true") ∧
    _parse_tag " env : prod " = ("env", "prod") := by
  exact ⟨parse_tag_no_colon, parse_tag_split, by decide, by decide, by decide, by decide⟩

/-- Witness for C6 amended at concrete tags. -/
theorem C6_witness :
    _parse_tag "smoke2" = ("smoke2", "true") ∧
    _parse_tag (" k " ++ ":" ++ " v ") = ("k", "v") := by
  have h1 := C6_amended.1 "smoke2" (by decide)
  have h2 := C6_amended.2.1 " k " " v " (by decide)
  constructor
  · rw [h1]
    decide
  · rw [h2]
    decide

/-- Claim C7: evaluating the regex clauses is total, and a malformed pattern
(one on which the oracle reports re.error) is treated as not matching in the
any clause, where the surrounding patterns still decide the clause, while in
the all clause it forces the whole clause to false. -/
theorem C7_theorem (rx : RegexOracle) (pre post : List String) (p hay : String)
    (hbad : rx p hay = none) :
    _regex_any rx (pre ++ p :: post) hay = _regex_any rx (pre ++ post) hay ∧
    _regex_all rx (pre ++ p :: post) hay = false := by
  constructor
  · simp [_regex_any, List.any_append, hbad]
  · simp [_regex_all, List.all_append, hbad]

/-- Witness for C7 at a concrete oracle, pattern list and haystack. -/
theorem C7_witness :
    rxW "[" "x" = none ∧
    _regex_any rxW (["x"] ++ "[" :: ["y"]) "x" = _regex_any rxW (["x"] ++ ["y"]) "x" ∧
    _regex_all rxW (["x"] ++ "[" :: ["y"]) "x" = false := by
  have h := C7_theorem rxW ["x"] ["y"] "[" "x" (by decide)
  exact ⟨by decide, h.1, h.2⟩

/-- Claim C9: converting the application `Orders` tagged `env:prod` with the
untagged components `api` and `worker` under an empty registry produces one
pipeline document with identifier `Orders_deploy` whose stages are those for
`api` then `worker` in order, and two service documents with identifiers
`Orders_api` and `Orders_worker`. -/
theorem C9_theorem :
    (convert_application noRx ordersApp [] false "my_org" "my_project").2.identifier =
      "Orders_deploy" ∧
    (convert_application noRx ordersApp [] false "my_org" "my_project").2.stages.map
      StageDoc.name = ["api", "worker"] ∧
    (convert_application noRx ordersApp [] false "my_org" "my_project").2.stages.map
      StageDoc.identifier = ["api", "worker"] ∧
    (convert_application noRx ordersApp [] false "my_org" "my_project").1.map
      ServiceDoc.identifier = ["Orders_api", "Orders_worker"] ∧
    (convert_application noRx ordersApp [] false "my_org" "my_project").1.length = 2 := by
  decide

end UcdToHarness
